import Mathlib

/-!
Verification development for the poly-scraper ingestion pipeline.

This file is a shallow embedding, in Lean 4, of the ingestion/aggregation
core of the repository: the trades worker (src/ingester/src/workers/trades.py),
the markets worker (markets.py) and the candles worker (candles.py).

Modelling conventions:
- Python scalar values that the workers read from upstream JSON objects are
  modelled by the type PyVal (integers, floats, strings, None).  Float-typed
  quantities are modelled as exact rationals; every arithmetic operation the
  pipeline performs on the values exercised by the claims (max, min, sums of
  small integers) is exact in IEEE double as well.
- datetime values are modelled as epoch seconds (Int), with an auxiliary
  microsecond component where the code can produce fractional seconds.
  datetime.now(timezone.utc) becomes an explicit "now : Int" parameter and
  the process's local timezone (used by astimezone on naive datetimes)
  becomes an explicit "tz : Int" offset parameter.
- fallible Python code (datetime.fromtimestamp out of range, float(...) on
  unparseable input) is modelled with Option / Except.
- the document store's bulk operation semantics (op type "index" =
  insert-or-overwrite, "create" = create-if-absent failing on conflict) are
  those of the spec's external-interface description of the store.
-/

namespace PolyScraper

/-- Model of the Python scalar values the workers read from JSON objects. -/
inductive PyVal : Type where
  | vnone : PyVal
  | vint : Int → PyVal
  | vfloat : ℚ → PyVal
  | vstr : String → PyVal
  deriving DecidableEq, Repr

/-- Python truthiness for the values above: None, 0, 0.0 and "" are falsy. -/
def pyTruthy : PyVal → Bool
  | .vnone => false
  | .vint n => n ≠ 0
  | .vfloat q => q ≠ 0
  | .vstr s => s ≠ ""

/-- Renders a rational that is an exact decimal in the way Python renders the
corresponding float (shortest decimal form); non-decimal rationals (which the
pipeline never produces from upstream decimal text) fall back to a
numerator/denominator rendering. -/
def floatRepr (q : ℚ) : String :=
  if q.den = 1 then toString q.num ++ ".0"
  else
    match (List.range 18).find? (fun k => q.den ∣ 10 ^ k) with
    | some k =>
        let scaled : Nat := q.num.natAbs * (10 ^ k / q.den)
        let ip : Nat := scaled / 10 ^ k
        let fp : Nat := scaled % 10 ^ k
        let fpStr : String := toString fp
        let fpPad : String :=
          String.mk (List.replicate (k - fpStr.length) '0') ++ fpStr
        (if q.num < 0 then "-" else "") ++ toString ip ++ "." ++ fpPad
    | none => toString q.num ++ "/" ++ toString q.den

/-- Python str() on the modelled values. -/
def pyStr : PyVal → String
  | .vnone => "None"
  | .vint n => toString n
  | .vfloat q => floatRepr q
  | .vstr s => s

/-- Python "a or b": the left value if truthy, else the right value. -/
def pyOr (a b : PyVal) : PyVal := if pyTruthy a then a else b

/-- Reads a key of a Python dict: a missing key behaves as the value None. -/
def getVal (v : Option PyVal) : PyVal := v.getD .vnone

/-! Character-list models of the string operations the workers use.  The
core library versions are well-founded recursions over byte positions,
which the kernel cannot reduce; these structural versions compute under
decide and rfl and agree with the Python operations on the values the
pipeline exchanges. -/

/-- Replacement of every occurrence of a nonempty pattern, left to right.
Structural recursion on a fuel bound: every step consumes at least one
input character, so fuel at least the input length makes the zero-fuel case
unreachable. -/
def replaceAux (p1 : Char) (ps rep : List Char) : Nat → List Char → List Char
  | 0, l => l
  | _ + 1, [] => []
  | fuel + 1, c :: rest =>
      if (p1 :: ps).isPrefixOf (c :: rest) then
        rep ++ replaceAux p1 ps rep fuel ((c :: rest).drop (ps.length + 1))
      else c :: replaceAux p1 ps rep fuel rest

/-- Model of Python str.replace (and of String.replace for a nonempty
pattern; an empty pattern is never used by the workers). -/
def strReplace (s pat rep : String) : String :=
  match pat.data with
  | [] => s
  | p1 :: ps => String.mk (replaceAux p1 ps rep.data (s.data.length + 1) s.data)

/-- Model of str.strip for whitespace. -/
def strTrim (s : String) : String :=
  String.mk
    (((s.data.dropWhile Char.isWhitespace).reverse.dropWhile
      Char.isWhitespace).reverse)

/-- Model of str.endswith. -/
def strEndsWith (s pat : String) : Bool := pat.data.isSuffixOf s.data

/-- Model of str.lower on the ASCII values the side field carries. -/
def strToLower (s : String) : String := String.mk (s.data.map Char.toLower)

/-- Model of the s[:-n] slice on ASCII strings. -/
def strDropRight (s : String) (n : Nat) : String :=
  String.mk (s.data.take (s.data.length - n))

/-- Model of sep.join(parts). -/
def strJoin (sep : String) : List String → String
  | [] => ""
  | [x] => x
  | x :: y :: rest => x ++ sep ++ strJoin sep (y :: rest)

/-- Parses a string of decimal digits; none when empty or non-digit. -/
def digitsToNat (cs : List Char) : Option Nat :=
  if cs ≠ [] ∧ cs.all Char.isDigit then
    some (cs.foldl (fun a c => a * 10 + (c.toNat - 48)) 0)
  else none

/-- Model of Python int(str): optional sign and digits, whitespace stripped.
Underscore digit separators are not modelled (never exercised). -/
def pyIntOfString (s : String) : Option Int :=
  let cs := (strTrim s).data
  match cs with
  | '-' :: rest => (digitsToNat rest).map (fun n => -(n : Int))
  | '+' :: rest => (digitsToNat rest).map (fun n => (n : Int))
  | _ => (digitsToNat cs).map (fun n => (n : Int))

/-- Model of Python float(str) on plain decimal text: optional sign, digits
with an optional fractional part.  Exponent forms and inf/nan are not
modelled (the pipeline's price/size fields never carry them). -/
def parseFloatStr (s : String) : Option ℚ :=
  let cs := (strTrim s).data
  let (sgn, body) : Int × List Char :=
    match cs with
    | '-' :: rest => (-1, rest)
    | '+' :: rest => (1, rest)
    | _ => (1, cs)
  match body.splitOn '.' with
  | [ip] => (digitsToNat ip).map (fun n => (sgn * n : Int))
  | [ip, fp] =>
      if ip = [] ∧ fp = [] then none
      else
        let ipn : Option Nat := if ip = [] then some 0 else digitsToNat ip
        let fpn : Option Nat := if fp = [] then some 0 else digitsToNat fp
        match ipn, fpn with
        | some i, some f =>
            some (mkRat (sgn * (i * 10 ^ fp.length + f)) (10 ^ fp.length))
        | _, _ => none
  | _ => none

/-- Python float() applied to a modelled value; none models the raised
TypeError/ValueError. -/
def pyFloat : PyVal → Option ℚ
  | .vnone => none
  | .vint n => some (n : ℚ)
  | .vfloat q => some q
  | .vstr s => parseFloatStr s

/-- Python int() truncation (toward zero) of a modelled numeric value. -/
def pyTrunc : PyVal → Option Int
  | .vint n => some n
  | .vfloat q => some (q.num.tdiv (q.den : Int))
  | _ => none

/-! Calendar arithmetic: conversions between epoch days and proleptic
Gregorian civil dates, following the standard era-based algorithms used by
CPython's datetime internals. -/

/-- Converts a count of days since 1970-01-01 to (year, month, day). -/
def civilFromDays (z0 : Int) : Int × Nat × Nat :=
  let z := z0 + 719468
  let era := z.fdiv 146097
  let doe : Nat := (z - era * 146097).toNat
  let yoe : Nat := (doe - doe / 1461 + doe / 36524 - doe / 146096) / 365
  let doy : Nat := doe - (365 * yoe + yoe / 4 - yoe / 100)
  let mp : Nat := (5 * doy + 2) / 153
  let d : Nat := doy - (153 * mp + 2) / 5 + 1
  let m : Nat := if mp < 10 then mp + 3 else mp - 9
  let y : Int := (yoe : Int) + era * 400
  (if m ≤ 2 then y + 1 else y, m, d)

/-- Converts a civil (year, month, day) to days since 1970-01-01. -/
def daysFromCivil (y0 : Int) (m d : Nat) : Int :=
  let y := if m ≤ 2 then y0 - 1 else y0
  let era := y.fdiv 400
  let yoe : Nat := (y - era * 400).toNat
  let mp : Nat := if m > 2 then m - 3 else m + 9
  let doy : Nat := (153 * mp + 2) / 5 + d - 1
  let doe : Nat := yoe * 365 + yoe / 4 - yoe / 100 + doy
  era * 146097 + (doe : Int) - 719468

/-- Number of days in a month of a given year (Gregorian). -/
def daysInMonth (y : Int) (m : Nat) : Nat :=
  let leap : Bool := y % 4 = 0 ∧ (y % 100 ≠ 0 ∨ y % 400 = 0)
  match m with
  | 1 => 31 | 2 => if leap then 29 else 28 | 3 => 31 | 4 => 30
  | 5 => 31 | 6 => 30 | 7 => 31 | 8 => 31
  | 9 => 30 | 10 => 31 | 11 => 30 | 12 => 31
  | _ => 0

/-- Left-pads the decimal rendering of a natural with zeros to a width. -/
def padNum (w n : Nat) : String :=
  let s := toString n
  String.mk (List.replicate (w - s.length) '0') ++ s

/-- Smallest epoch second representable by datetime (0001-01-01T00:00:00). -/
def minEpoch : Int := -62135596800

/-- Largest epoch second representable by datetime (9999-12-31T23:59:59). -/
def maxEpoch : Int := 253402300799

/-- Renders the isoformat() of an aware UTC datetime with the given epoch
second and microsecond component. -/
def isoOfEpochMicros (secs : Int) (micros : Nat) : String :=
  let days := secs.fdiv 86400
  let sod : Nat := (secs.emod 86400).toNat
  let (y, m, d) := civilFromDays days
  let frac := if micros = 0 then "" else "." ++ padNum 6 micros
  padNum 4 y.toNat ++ "-" ++ padNum 2 m ++ "-" ++ padNum 2 d ++ "T" ++
    padNum 2 (sod / 3600) ++ ":" ++ padNum 2 (sod % 3600 / 60) ++ ":" ++
    padNum 2 (sod % 60) ++ frac ++ "+00:00"

/-- Renders the isoformat() of a whole-second aware UTC datetime. -/
def isoOfEpoch (secs : Int) : String := isoOfEpochMicros secs 0

/-- Renders strftime("%Y.%m.%d") of the UTC datetime at an epoch second. -/
def ymdOfEpoch (secs : Int) : String :=
  let (y, m, d) := civilFromDays (secs.fdiv 86400)
  padNum 4 y.toNat ++ "." ++ padNum 2 m ++ "." ++ padNum 2 d

/-- Core of datetime.fromtimestamp(a / b, tz=utc) for a positive denominator
b: rounds the value to microseconds (the (2a + b) / 2b floor below is the
round-half-up form of floor(a/b + 1/2); CPython rounds half to even, a tie
case no pipeline value reaches) and fails (raises) outside the representable
year range 1..9999. -/
def fromtimestampND (a b : Int) : Option (Int × Nat) :=
  let totalMicros : Int := (2 * (a * 1000000) + b).fdiv (2 * b)
  let secs : Int := totalMicros.fdiv 1000000
  let micros : Nat := (totalMicros.emod 1000000).toNat
  if minEpoch ≤ secs ∧ secs ≤ maxEpoch then some (secs, micros) else none

/-- Model of datetime.fromtimestamp(q, tz=utc). -/
def fromtimestamp (q : ℚ) : Option (Int × Nat) := fromtimestampND q.num (q.den : Int)

/-- Model of datetime.fromtimestamp on a whole second. -/
def fromtimestampInt (n : Int) : Option Int :=
  if minEpoch ≤ n ∧ n ≤ maxEpoch then some n else none

/-- Parses the trailing UTC-offset part of an ISO-8601 string: empty means a
naive datetime, otherwise a sign and "HH:MM".  Returns the offset in
seconds. -/
def parseOffsetPart (cs : List Char) : Option (Option Int) :=
  match cs with
  | [] => some none
  | sgn :: o1 :: o2 :: ':' :: o3 :: o4 :: [] =>
      if sgn = '+' ∨ sgn = '-' then
        match digitsToNat [o1, o2], digitsToNat [o3, o4] with
        | some oh, some om =>
            if oh ≤ 23 ∧ om ≤ 59 then
              let secs : Int := (oh : Int) * 3600 + om * 60
              some (some (if sgn = '-' then -secs else secs))
            else none
        | _, _ => none
      else none
  | _ => none

/-- Parses the "[:SS]offset" tail after "HH:MM".  Returns seconds-of-minute
and the optional offset.  Fractional seconds are not modelled (the pipeline
only writes and reads whole-second timestamps). -/
def parseSecondsPart (cs : List Char) : Option (Nat × Option Int) :=
  match cs with
  | ':' :: s1 :: s2 :: rest =>
      match digitsToNat [s1, s2] with
      | some ss =>
          if ss ≤ 59 then (parseOffsetPart rest).map (fun off => (ss, off))
          else none
      | none => none
  | rest => (parseOffsetPart rest).map (fun off => (0, off))

/-- Model of datetime.fromisoformat on the extended-format subset this
pipeline exchanges: "YYYY-MM-DD", optionally followed by a single separator
character and "HH:MM[:SS]" and an optional "+HH:MM" offset.  Returns the
epoch second of the naive civil reading together with the explicit offset
when one is present; none models the raised ValueError. -/
def fromisoformat (s : String) : Option (Int × Option Int) :=
  match s.data with
  | y1 :: y2 :: y3 :: y4 :: '-' :: n1 :: n2 :: '-' :: d1 :: d2 :: rest =>
      match digitsToNat [y1, y2, y3, y4], digitsToNat [n1, n2],
          digitsToNat [d1, d2] with
      | some y, some m, some d =>
          if 1 ≤ y ∧ 1 ≤ m ∧ m ≤ 12 ∧ 1 ≤ d ∧ d ≤ daysInMonth y m then
            let dayEpoch : Int := daysFromCivil (y : Int) m d * 86400
            match rest with
            | [] => some (dayEpoch, none)
            | _sep :: h1 :: h2 :: ':' :: i1 :: i2 :: rest2 =>
                match digitsToNat [h1, h2], digitsToNat [i1, i2] with
                | some hh, some mi =>
                    if hh ≤ 23 ∧ mi ≤ 59 then
                      (parseSecondsPart rest2).map (fun (ss, off) =>
                        (dayEpoch + hh * 3600 + mi * 60 + ss, off))
                    else none
                | _, _ => none
            | _ => none
          else none
      | _, _, _ => none
  | _ => none

/-- Converts a parsed (naive-epoch, optional offset) pair to a UTC epoch
second, the way astimezone(timezone.utc) does: an explicit offset is
subtracted, a naive datetime is interpreted in the process's local timezone
tz (an offset in seconds). -/
def toUtcEpoch (tz : Int) (p : Int × Option Int) : Int := p.1 - (p.2.getD tz)

/-- Decidable equality of Except values, used to evaluate the fallible
models on concrete inputs. -/
instance {ε α : Type} [DecidableEq ε] [DecidableEq α] :
    DecidableEq (Except ε α) := fun x y =>
  match x, y with
  | .error a, .error b =>
      if h : a = b then .isTrue (by rw [h])
      else .isFalse (fun hh => h (by injection hh))
  | .ok a, .ok b =>
      if h : a = b then .isTrue (by rw [h])
      else .isFalse (fun hh => h (by injection hh))
  | .error _, .ok _ => .isFalse (fun hh => Except.noConfusion hh)
  | .ok _, .error _ => .isFalse (fun hh => Except.noConfusion hh)

/-! Byte-level model of hashlib.sha1 over UTF-8 input, used by the identity
generators' fallback paths.  Words are naturals reduced mod 2^32. -/

/-- UTF-8 encoding of a single code point. -/
def encodeCodePoint (n : Nat) : List Nat :=
  if n < 128 then [n]
  else if n < 2048 then [192 + n / 64, 128 + n % 64]
  else if n < 65536 then [224 + n / 4096, 128 + n / 64 % 64, 128 + n % 64]
  else [240 + n / 262144, 128 + n / 4096 % 64, 128 + n / 64 % 64, 128 + n % 64]

/-- UTF-8 encoding of a string, as a list of bytes. -/
def utf8Bytes (s : String) : List Nat :=
  s.data.foldr (fun c acc => encodeCodePoint c.toNat ++ acc) []

/-- Left-rotation of a 32-bit word held in a natural. -/
def rotl32 (k n : Nat) : Nat := (n * 2 ^ k + n / 2 ^ (32 - k)) % 2 ^ 32

/-- Big-endian bytes of a natural, fixed width. -/
def beBytes (w x : Nat) : List Nat :=
  (List.range w).map (fun i => x / 2 ^ (8 * (w - 1 - i)) % 256)

/-- Big-endian word value of a list of bytes. -/
def beWord (bs : List Nat) : Nat := bs.foldl (fun a b => a * 256 + b) 0

/-- SHA-1 message padding: a 0x80 byte, zeros to 56 mod 64, then the
bit length in 8 big-endian bytes. -/
def sha1Pad (msg : List Nat) : List Nat :=
  let l := msg.length
  msg ++ [128] ++ List.replicate ((119 - l % 64) % 64) 0 ++ beBytes 8 (l * 8)

/-- Splits a byte list into 64-byte blocks (fuel-structural; each step
consumes 64 bytes, so fuel at least the length suffices). -/
def blocks64Aux : Nat → List Nat → List (List Nat)
  | 0, _ => []
  | _ + 1, [] => []
  | fuel + 1, a :: rest => ((a :: rest).take 64) :: blocks64Aux fuel ((a :: rest).drop 64)

/-- Splits a byte list into 64-byte blocks. -/
def blocks64 (l : List Nat) : List (List Nat) := blocks64Aux (l.length + 1) l

/-- Splits a block into big-endian 32-bit words. -/
def wordsOfBlock : List Nat → List Nat
  | b1 :: b2 :: b3 :: b4 :: rest => beWord [b1, b2, b3, b4] :: wordsOfBlock rest
  | _ => []

/-- Message-schedule extension, building the 80 words in reverse order. -/
def sha1Extend (wrev : List Nat) : Nat → List Nat
  | 0 => wrev
  | k + 1 =>
      let x := (wrev.getD 2 0) ^^^ (wrev.getD 7 0) ^^^ (wrev.getD 13 0) ^^^
        (wrev.getD 15 0)
      sha1Extend (rotl32 1 x :: wrev) k

/-- One round of the SHA-1 compression function. -/
def sha1Round (st : Nat × Nat × Nat × Nat × Nat) (iw : Nat × Nat) :
    Nat × Nat × Nat × Nat × Nat :=
  let (i, w) := iw
  let (a, b, c, d, e) := st
  let mask := 2 ^ 32 - 1
  let f :=
    if i < 20 then (b &&& c) ||| ((mask - b) &&& d)
    else if i < 40 then b ^^^ c ^^^ d
    else if i < 60 then (b &&& c) ||| (b &&& d) ||| (c &&& d)
    else b ^^^ c ^^^ d
  let k :=
    if i < 20 then 0x5A827999
    else if i < 40 then 0x6ED9EBA1
    else if i < 60 then 0x8F1BBCDC
    else 0xCA62C1D6
  let temp := (rotl32 5 a + f + e + k + w) % 2 ^ 32
  (temp, a, rotl32 30 b, c, d)

/-- Processes one 64-byte block into the running hash state. -/
def sha1Block (h : Nat × Nat × Nat × Nat × Nat) (block : List Nat) :
    Nat × Nat × Nat × Nat × Nat :=
  let w80 := (sha1Extend (wordsOfBlock block).reverse 64).reverse
  let (h0, h1, h2, h3, h4) := h
  let (a, b, c, d, e) := w80.enum.foldl sha1Round h
  ((h0 + a) % 2 ^ 32, (h1 + b) % 2 ^ 32, (h2 + c) % 2 ^ 32,
    (h3 + d) % 2 ^ 32, (h4 + e) % 2 ^ 32)

/-- Lowercase hex digit. -/
def hexDigit (n : Nat) : Char :=
  if n < 10 then Char.ofNat (48 + n) else Char.ofNat (87 + n)

/-- Lowercase 8-hex-digit rendering of a 32-bit word. -/
def hex8 (x : Nat) : String :=
  String.mk ((List.range 8).map (fun i => hexDigit (x / 16 ^ (7 - i) % 16)))

/-- Model of hashlib.sha1(bytes).hexdigest(). -/
def sha1Hex (msg : List Nat) : String :=
  let init : Nat × Nat × Nat × Nat × Nat :=
    (0x67452301, 0xEFCDAB89, 0x98BADCFE, 0x10325476, 0xC3D2E1F0)
  let (h0, h1, h2, h3, h4) := (blocks64 (sha1Pad msg)).foldl sha1Block init
  hex8 h0 ++ hex8 h1 ++ hex8 h2 ++ hex8 h3 ++ hex8 h4

/-! Model of the document store's bulk-write interface (the spec's external
interface for the sink): each action carries an operation type, a target
index, a document identity and a payload.  Operation "index" inserts or
overwrites; operation "create" inserts only if the identity is absent and
reports a per-document error (not counted as a success) on conflict. -/

/-- Bulk operation type requested per document. -/
inductive OpType : Type where
  | index : OpType
  | create : OpType
  deriving DecidableEq, Repr

/-- One document of a bulk request: the _op_type, _index, _id and _source
fields of the actions the workers build. -/
structure BulkAction (α : Type) : Type where
  op : OpType
  target : String
  id : String
  source : α
  deriving DecidableEq, Repr

/-- The document store, as a map from (index, identity) to stored payload. -/
abbrev Store (α : Type) := List ((String × String) × α)

/-- Looks up a stored document. -/
def storeGet {α : Type} (s : Store α) (k : String × String) : Option α :=
  (s.find? (fun e => e.1 = k)).map (fun e => e.2)

/-- Inserts or overwrites a stored document. -/
def storeSet {α : Type} (s : Store α) (k : String × String) (v : α) : Store α :=
  match s with
  | [] => [(k, v)]
  | e :: rest => if e.1 = k then (k, v) :: rest else e :: storeSet rest k v

/-- Applies one bulk action to the store, also counting a success. -/
def applyAction {α : Type} (acc : Store α × Nat) (a : BulkAction α) :
    Store α × Nat :=
  match a.op with
  | .index => (storeSet acc.1 (a.target, a.id) a.source, acc.2 + 1)
  | .create =>
      if (storeGet acc.1 (a.target, a.id)).isSome then acc
      else (storeSet acc.1 (a.target, a.id) a.source, acc.2 + 1)

/-- Applies a bulk request, returning the new store and the success count
(the first component of the helpers.bulk return value). -/
def applyBulk {α : Type} (s : Store α) (acts : List (BulkAction α)) :
    Store α × Nat :=
  acts.foldl applyAction (s, 0)

/-- Shared checkpoint-timestamp parse used by the workers:
fromisoformat(s.replace("Z", "+00:00")).astimezone(utc) as an epoch
second. -/
def parseCkptUtc (tz : Int) (s : String) : Option Int :=
  (fromisoformat (strReplace s "Z" "+00:00")).map (toUtcEpoch tz)

namespace Trades

/-- Raw upstream trade record: the keys workers/trades.py reads, where a
missing field is a missing dict key and vnone is an explicit JSON null. -/
structure RawTrade : Type where
  ts : Option PyVal := none
  timestamp : Option PyVal := none
  market_id : Option PyVal := none
  conditionId : Option PyVal := none
  price : Option PyVal := none
  size : Option PyVal := none
  side : Option PyVal := none
  transactionHash : Option PyVal := none
  txHash : Option PyVal := none
  asset : Option PyVal := none
  deriving DecidableEq, Repr

/-- Normalized trade document, the out dict built by to_es_doc. -/
structure TradeDoc : Type where
  ts : String
  market_id : Option PyVal := none
  price : Option ℚ := none
  size : Option ℚ := none
  side : Option String := none
  deriving DecidableEq, Repr

/-- The non-timestamp part of the out dict to_es_doc builds: market_id
(with the conditionId alias), numeric coercions and side lowercasing. -/
def mkOut (t : RawTrade) (tsStr : String) : TradeDoc :=
  { ts := tsStr,
    market_id :=
      match t.market_id with
      | some v => some v
      | none => t.conditionId,
    price := t.price.bind pyFloat, size := t.size.bind pyFloat,
    side :=
      match t.side with
      | some (.vstr s) => some (strToLower s)
      | _ => none }

/-- Model of workers/trades.py to_es_doc.  tz is the process-local timezone
offset used by astimezone on naive parsed strings; now is the wall clock read
in the fallback branches.  The numeric branch has no try/except in the
source, so an out-of-range epoch raises: this is the Except.error case. -/
def to_es_doc (tz now : Int) (t : RawTrade) : Except Unit TradeDoc :=
  match pyOr (getVal t.ts) (getVal t.timestamp) with
  | .vint n =>
      match fromtimestampInt n with
      | some s => .ok (mkOut t (isoOfEpoch s))
      | none => .error ()
  | .vfloat q =>
      match fromtimestampInt (q.num.tdiv (q.den : Int)) with
      | some s => .ok (mkOut t (isoOfEpoch s))
      | none => .error ()
  | .vstr s =>
      match fromisoformat (strReplace s "Z" "+00:00") with
      | some p => .ok (mkOut t (isoOfEpoch (toUtcEpoch tz p)))
      | none => .ok (mkOut t (isoOfEpoch now))
  | .vnone => .ok (mkOut t (isoOfEpoch now))

/-- Model of workers/trades.py generate_trade_id: transaction hash + asset +
raw timestamp when all three are truthy, else a sha1 of the joined key
fields. -/
def generate_trade_id (t : RawTrade) : String :=
  let tx := pyStr (pyOr (getVal t.transactionHash) (pyOr (getVal t.txHash) (.vstr "")))
  let asset := pyStr (pyOr (getVal t.asset) (.vstr ""))
  let ts := pyStr (pyOr (getVal t.timestamp) (pyOr (getVal t.ts) (.vstr "")))
  if tx ≠ "" ∧ asset ≠ "" ∧ ts ≠ "" then tx ++ ":" ++ asset ++ ":" ++ ts
  else
    let key := strJoin "|"
      [pyStr (pyOr (getVal t.conditionId) (pyOr (getVal t.market_id) (.vstr ""))),
       asset,
       pyStr (pyOr (getVal t.side) (.vstr "")),
       pyStr (pyOr (getVal t.price) (.vstr "")),
       pyStr (pyOr (getVal t.size) (.vstr "")),
       ts]
    sha1Hex (utf8Bytes key)

/-- Model of workers/trades.py index_for_timestamp. -/
def index_for_timestamp (tz now : Int) (ts : String) : String :=
  match fromisoformat (strReplace ts "Z" "+00:00") with
  | some p => "trades_v1-" ++ ymdOfEpoch (toUtcEpoch tz p)
  | none => "trades_v1-" ++ ymdOfEpoch now

/-- The bulk action bulk_upsert_trades builds for one trade. -/
def tradeAction (tz now : Int) (t : RawTrade) (doc : TradeDoc) :
    BulkAction TradeDoc :=
  let tsVal := pyOr (getVal t.ts) (getVal t.timestamp)
  let tsVal := if pyTruthy tsVal then tsVal else .vstr (isoOfEpoch now)
  { op := .index, target := index_for_timestamp tz now (pyStr tsVal),
    id := generate_trade_id t, source := doc }

/-- The action list bulk_upsert_trades builds; an exception raised by
to_es_doc mid-loop aborts the whole call. -/
def tradesActions (tz now : Int) : List RawTrade →
    Except Unit (List (BulkAction TradeDoc))
  | [] => .ok []
  | t :: rest =>
      match to_es_doc tz now t with
      | .error e => .error e
      | .ok d =>
          match tradesActions tz now rest with
          | .error e => .error e
          | .ok tail => .ok (tradeAction tz now t d :: tail)

/-- Model of the start-position computation of backfill_trades: default
lookback of days, replaced by the parsed checkpoint when one is present,
truthy and parseable. -/
def backfillStart (lastTs : Option String) (tz now days : Int) : Int :=
  let dflt := now - days * 86400
  match lastTs with
  | none => dflt
  | some s => if s = "" then dflt else (parseCkptUtc tz s).getD dflt

/-- Pagination state of the backfill inner loop: current cursor and page. -/
structure TState : Type where
  cursor : Option String := none
  page : Option Int := none
  deriving DecidableEq, Repr

/-- An upstream source for the trades fetch: maps the request ordinal and
pagination state to (data, next_cursor, next_page). -/
def TUpstream : Type := Nat → TState → List RawTrade × Option String × Option Int

/-- Outcome of running the backfill inner pagination loop for a bounded
number of iterations. -/
inductive InnerOutcome : Type where
  | finished : InnerOutcome
  | raised : InnerOutcome
  | running : InnerOutcome
  deriving DecidableEq, Repr

/-- Model of the inner while-True pagination loop of backfill_trades, run
for at most fuel iterations; running means the loop had not exited after
fuel page requests.  The source has no page-count ceiling in this loop. -/
def runInner (u : TUpstream) (pageSize : Nat) (tz now : Int) :
    Nat → Nat → TState → InnerOutcome
  | 0, _, _ => .running
  | fuel + 1, call, st =>
      let resp := u call st
      let data := resp.1
      let nextCursor := resp.2.1
      let nextPage := resp.2.2
      if data = [] then .finished
      else
        match tradesActions tz now data with
        | .error _ => .raised
        | .ok _ =>
            let cursorTruthy := match nextCursor with
              | some c => c != "" | none => false
            if cursorTruthy then
              runInner u pageSize tz now fuel (call + 1) ⟨nextCursor, none⟩
            else if nextPage.isSome then
              runInner u pageSize tz now fuel (call + 1) ⟨none, nextPage⟩
            else if data.length < pageSize then .finished
            else
              let p : Int :=
                match st.page with
                | some q => if q ≠ 0 then q else 1
                | none => 1
              runInner u pageSize tz now fuel (call + 1) ⟨none, some (p + 1)⟩

/-- Model of one cycle of the incremental polling loop of run_trades_worker:
the checkpoint file content before and after.  The fetch outcome and the
bulk-write success count are the cycle's external inputs; an Except.error in
either models an exception caught by the cycle's try/except. -/
def tradesCycle (file : Option String) (now : Int)
    (fetchResult : Except Unit (List RawTrade))
    (sinkCount : Except Unit Nat) : Option String :=
  match fetchResult with
  | .error _ => file
  | .ok data =>
      let count : Except Unit Nat := if data = [] then .ok 0 else sinkCount
      match count with
      | .error _ => file
      | .ok c => if c ≠ 0 then some (isoOfEpoch now) else file

end Trades

namespace Markets

/-- Raw upstream market object, an ordered JSON dict. -/
abbrev RawMarket := List (String × PyVal)

/-- Dict read of a key (first binding wins, as dict keys are unique). -/
def mget (m : RawMarket) (k : String) : Option PyVal :=
  (m.find? (fun e => e.1 = k)).map (fun e => e.2)

/-- Python "key in dict". -/
def keyIn (m : RawMarket) (k : String) : Bool := (mget m k).isSome

/-- Dict assignment: replaces the binding in place or appends a new key. -/
def dictSet (m : RawMarket) (k : String) (v : PyVal) : RawMarket :=
  match m with
  | [] => [(k, v)]
  | e :: rest => if e.1 = k then (k, v) :: rest else e :: dictSet rest k v

/-- Numeric branch of workers/markets.py _to_iso: epoch seconds, or epoch
milliseconds when above the magnitude threshold, with the out-of-range
error caught (returning none). -/
def numToIso (q : ℚ) : Option String :=
  if q > 1000000000000 then
    (fromtimestampND q.num ((q.den : Int) * 1000)).map
      (fun p => isoOfEpochMicros p.1 p.2)
  else
    (fromtimestamp q).map (fun p => isoOfEpochMicros p.1 p.2)

/-- Model of workers/markets.py _to_iso. -/
def to_iso (tz : Int) : PyVal → Option String
  | .vnone => none
  | .vint n => numToIso (n : ℚ)
  | .vfloat q => numToIso q
  | .vstr s =>
      let v := strTrim s
      let v2 := if strEndsWith v "Z" then strReplace v "Z" "+00:00" else v
      match fromisoformat v2 with
      | some p => some (isoOfEpoch (toUtcEpoch tz p))
      | none =>
          match pyIntOfString s with
          | some n => numToIso (n : ℚ)
          | none => none

/-- The created_at source-field scan of workers/markets.py to_es_doc: the
first present, non-null key whose _to_iso result is truthy. -/
def findCreated (tz : Int) (doc : RawMarket) : List String → Option String
  | [] => none
  | k :: rest =>
      match mget doc k with
      | some v =>
          if v ≠ .vnone then
            match to_iso tz v with
            | some s => if s = "" then findCreated tz doc rest else some s
            | none => findCreated tz doc rest
          else findCreated tz doc rest
      | none => findCreated tz doc rest

/-- The candidate source fields for created_at, in scan order. -/
def createdSources : List String :=
  ["created_at", "createdAt", "created_time", "creation_time", "creationTime",
   "created", "openDate", "openTime", "start_date", "startDate",
   "start_time", "startTime"]

/-- Model of workers/markets.py to_es_doc: copies the raw dict, ensures
market_id, and normalizes created_at. -/
def to_es_doc (tz : Int) (m : RawMarket) : RawMarket :=
  let doc := m
  let doc :=
    if ¬ keyIn doc "market_id" ∧ keyIn doc "id" then
      doc ++ [("market_id", getVal (mget doc "id"))]
    else doc
  match findCreated tz doc createdSources with
  | some ca => dictSet doc "created_at" (.vstr ca)
  | none => doc

/-- Model of workers/markets.py generate_market_id. -/
def generate_market_id (m : RawMarket) : String :=
  let mid := pyStr (pyOr (getVal (mget m "id"))
    (pyOr (getVal (mget m "market_id")) (.vstr "")))
  if mid ≠ "" then mid
  else
    let key := strJoin "|"
      [pyStr (pyOr (getVal (mget m "title")) (.vstr "")),
       pyStr (pyOr (getVal (mget m "created_at"))
         (pyOr (getVal (mget m "createdAt")) (.vstr "")))]
    sha1Hex (utf8Bytes key)

/-- The action list bulk_upsert_markets builds: one index-op action per
market, never dropping a record. -/
def marketsActions (tz : Int) (ms : List RawMarket) :
    List (BulkAction RawMarket) :=
  ms.map (fun m =>
    { op := .index, target := "markets_v1", id := generate_market_id m,
      source := to_es_doc tz m })

/-- Pagination state of fetch_all_markets. -/
structure MState : Type where
  cursor : Option String := none
  page : Option Int := none
  offset : Option Nat := none
  deriving DecidableEq, Repr

/-- An upstream source for the markets fetch. -/
def MUpstream : Type :=
  Nat → MState → List RawMarket × Option String × Option Int

/-- The fetch_all_markets loop body: fuel is the number of page requests
the safety_pages ceiling still allows; when it reaches zero the loop breaks
before requesting.  Returns the accumulated results and the number of page
requests made. -/
def fetchAllGo (u : MUpstream) (pageSize : Nat) :
    Nat → Nat → MState → List RawMarket × Nat
  | 0, _, _ => ([], 0)
  | fuel + 1, call, st =>
      let resp := u call st
      let data := resp.1
      let nextCursor := resp.2.1
      let nextPage := resp.2.2
      if data = [] then ([], 1)
      else
        let cursorTruthy := match nextCursor with
          | some c => c != "" | none => false
        if cursorTruthy then
          let r := fetchAllGo u pageSize fuel (call + 1) ⟨nextCursor, none, none⟩
          (data ++ r.1, r.2 + 1)
        else if nextPage.isSome then
          let r := fetchAllGo u pageSize fuel (call + 1) ⟨none, nextPage, none⟩
          (data ++ r.1, r.2 + 1)
        else if data.length < pageSize then (data, 1)
        else
          let r := fetchAllGo u pageSize fuel (call + 1)
            ⟨none, none, some (st.offset.getD 0 + pageSize)⟩
          (data ++ r.1, r.2 + 1)

/-- Model of workers/markets.py fetch_all_markets: the safety_pages counter
bounds the loop at 10000 page requests. -/
def fetch_all_markets (u : MUpstream) (pageSize : Nat) : List RawMarket × Nat :=
  fetchAllGo u pageSize 10000 1 ⟨none, none, some 0⟩

end Markets

namespace Candles

open Trades (TradeDoc)

/-- Model of workers/candles.py _interval_to_timedelta, in seconds; the
error case covers both the unsupported-suffix ValueError and an
unparseable count. -/
def interval_to_seconds (s : String) : Except Unit Int :=
  if strEndsWith s "m" then
    match pyIntOfString (strDropRight s 1) with
    | some n => .ok (n * 60)
    | none => .error ()
  else if strEndsWith s "h" then
    match pyIntOfString (strDropRight s 1) with
    | some n => .ok (n * 3600)
    | none => .error ()
  else .error ()

/-- The while-loop of _bucket_range after alignment, as structural
recursion on a fuel bound.  Each iteration requires t below the end and
advances t by the step, so for a positive step the iteration count is at
most (endT - t).toNat and the fuel bucket_range supplies is never
exhausted; the conjunct 0 < step restricts the model to the positive steps
the worker can produce (the source loop would not terminate otherwise). -/
def bucketGo (endT step : Int) : Nat → Int → List Int
  | 0, _ => []
  | fuel + 1, t =>
      if 0 < step ∧ t < endT then t :: bucketGo endT step fuel (t + step) else []

/-- The bucket-alignment formula of _bucket_range (line 66): the epoch
second aligned down to a step boundary. -/
def tradeBucket (step t : Int) : Int := t - t % step

/-- Model of workers/candles.py _bucket_range: aligns the start down to a
step boundary, then yields bucket starts strictly below the end. -/
def bucket_range (start endT step : Int) : List Int :=
  bucketGo endT step ((endT - tradeBucket step start).toNat + 1) (tradeBucket step start)

/-- The _price read of a stored trade: float(price) with failures giving
0.0. -/
def price_of (t : TradeDoc) : ℚ := t.price.getD 0

/-- The _size read of a stored trade. -/
def size_of (t : TradeDoc) : ℚ := t.size.getD 0

/-- The grouping key: str(market_id or ""). -/
def mid_of (t : TradeDoc) : String := pyStr (pyOr (getVal t.market_id) (.vstr ""))

/-- Appends a trade to its market's bucket list, preserving first-seen
market order and per-market trade order (dict setdefault plus append). -/
def insertTrade (acc : List (String × List TradeDoc)) (mid : String)
    (t : TradeDoc) : List (String × List TradeDoc) :=
  match acc with
  | [] => [(mid, [t])]
  | (k, l) :: rest =>
      if k = mid then (k, l ++ [t]) :: rest
      else (k, l) :: insertTrade rest mid t

/-- The by_market grouping of _compute_candles; trades with an empty market
key are skipped. -/
def groupByMarket (ts : List TradeDoc) : List (String × List TradeDoc) :=
  ts.foldl (fun acc t =>
    let mid := mid_of t
    if mid = "" then acc else insertTrade acc mid t) []

/-- Python max over a generator with a default. -/
def pymax (xs : List ℚ) (dflt : ℚ) : ℚ :=
  match xs with
  | [] => dflt
  | h :: t => t.foldl max h

/-- Python min over a generator with a default. -/
def pymin (xs : List ℚ) (dflt : ℚ) : ℚ :=
  match xs with
  | [] => dflt
  | h :: t => t.foldl min h

/-- Python sum of a generator of floats. -/
def pysumQ (xs : List ℚ) : ℚ := xs.foldl (· + ·) 0

/-- An OHLCV candle document as _compute_candles emits it. -/
structure Candle : Type where
  market_id : String
  interval : String
  open_time : String
  open_p : ℚ
  high_p : ℚ
  low_p : ℚ
  close_p : ℚ
  volume : ℚ
  deriving DecidableEq, Repr

/-- Model of workers/candles.py _compute_candles over the trades fetched
for one bucket (already sorted ascending by the store query). -/
def compute_candles (trades : List TradeDoc) (interval : String)
    (bucketStart : Int) : List Candle :=
  (groupByMarket trades).filterMap (fun g =>
    match g.2 with
    | [] => none
    | r0 :: rest =>
        let rows := r0 :: rest
        let openP := price_of r0
        some { market_id := g.1, interval := interval,
               open_time := isoOfEpoch bucketStart,
               open_p := openP,
               high_p := pymax (rows.map price_of) openP,
               low_p := pymin (rows.map price_of) openP,
               close_p := price_of (rows.getLastD r0),
               volume := pysumQ (rows.map size_of) })

/-- The action list _bulk_index_candles builds: index-op (overwrite)
semantics with the composite identity market:interval:open_time. -/
def candlesActions (docs : List Candle) : List (BulkAction Candle) :=
  docs.map (fun d =>
    { op := .index, target := "candles_v1",
      id := d.market_id ++ ":" ++ d.interval ++ ":" ++ d.open_time,
      source := d })

/-- Model of workers/candles.py _load_checkpoint: the outer Option is
whether the file exists and is readable JSON, the inner Option is the
last_open_time field.  Any failure falls back to the default start. -/
def load_checkpoint (file : Option (Option String)) (tz : Int)
    (defaultStart : Int) : Int :=
  match file with
  | none => defaultStart
  | some lot =>
      match lot with
      | none => defaultStart
      | some s =>
          if s = "" then defaultStart
          else (parseCkptUtc tz s).getD defaultStart

end Candles

/-! Concrete fixtures used by the claim theorems, witnesses and
counterexamples. -/

namespace Fixtures

open Trades

/-- A raw trade record with no fields at all. -/
def emptyTrade : RawTrade := {}

/-- A raw trade identified by its transaction-hash path. -/
def tradeA : RawTrade :=
  { transactionHash := some (.vstr "a"), asset := some (.vstr "x"),
    timestamp := some (.vstr "2024-01-01T00:00:00+00:00") }

/-- Like tradeA but with a different transaction hash, which normalization
drops: both normalize to the identical document. -/
def tradeB : RawTrade := { tradeA with transactionHash := some (.vstr "b") }

/-- A raw trade whose only timestamp is the epoch-milliseconds form. -/
def tradeMs : RawTrade := { ts := some (.vint 1704067200000) }

/-- A raw trade with the epoch-seconds timestamp. -/
def tradeSec : RawTrade := { ts := some (.vint 1704067200) }

/-- A raw trade with the ISO-string timestamp. -/
def tradeIsoZ : RawTrade := { ts := some (.vstr "2024-01-01T00:00:00Z") }

/-- A raw trade with no timestamp field: its normalization reads the
wall clock. -/
def tradeNoTs : RawTrade := { price := some (.vstr "1") }

/-- A raw trade lacking any market linkage but carrying the
transaction-hash identity fields. -/
def tradeNoMarket : RawTrade :=
  { transactionHash := some (.vstr "h"), asset := some (.vstr "a"),
    timestamp := some (.vstr "2024-01-01T00:00:00+00:00") }

/-- First write of one logical trade identity. -/
def tradeP1 : RawTrade := { tradeNoMarket with price := some (.vstr "1") }

/-- Second write of the same identity with a different payload. -/
def tradeP2 : RawTrade := { tradeNoMarket with price := some (.vstr "2") }

/-- The store key tradeP1 and tradeP2 both resolve to. -/
def keyP : String × String :=
  ("trades_v1-2024.01.01", "h:a:2024-01-01T00:00:00+00:00")

/-- An upstream trades source that always returns a nonempty page together
with a next cursor. -/
def advTrades : TUpstream := fun _ _ => ([emptyTrade], some "c", none)

/-- The normalized document tradeP1 produces. -/
def docP1 : TradeDoc :=
  { ts := "2024-01-01T00:00:00+00:00", price := some 1 }

/-- The normalized document tradeP2 produces: same identity, different
payload. -/
def docP2 : TradeDoc :=
  { ts := "2024-01-01T00:00:00+00:00", price := some 2 }

/-- The bulk action the second write of the identity builds. -/
def actP2 : BulkAction TradeDoc :=
  { op := .index, target := keyP.1, id := keyP.2, source := docP2 }

/-- A stored trade document with no market linkage. -/
def docNoMid : TradeDoc := { ts := "2024-01-01T00:00:00+00:00" }

/-- The spec's three-trade candle example, in time order, one market. -/
def candleRows : List TradeDoc :=
  [ { ts := "2024-01-01T00:05:01+00:00", market_id := some (.vstr "m"),
      price := some 10, size := some 2 },
    { ts := "2024-01-01T00:05:02+00:00", market_id := some (.vstr "m"),
      price := some 12, size := some 3 },
    { ts := "2024-01-01T00:05:03+00:00", market_id := some (.vstr "m"),
      price := some 9, size := some 1 } ]

end Fixtures

/-- The Normalizer followed by the Identity Generator on one raw record at
one ingestion instant: wall clock now and local timezone tz enter only
through the normalizer. -/
def Trades.ingestPair (tz now : Int) (t : Trades.RawTrade) :
    String × Except Unit Trades.TradeDoc :=
  (Trades.generate_trade_id t, Trades.to_es_doc tz now t)

/-- Characterizes the raw trades whose normalization never falls back to
the wall clock, following the branch structure of to_es_doc: the effective
timestamp value is numeric and in the representable range, or a string the
ISO parser accepts. -/
def Trades.tsClockFree (t : Trades.RawTrade) : Bool :=
  match pyOr (getVal t.ts) (getVal t.timestamp) with
  | .vint n => (fromtimestampInt n).isSome
  | .vfloat q => (fromtimestampInt (q.num.tdiv (q.den : Int))).isSome
  | .vstr s => (fromisoformat (strReplace s "Z" "+00:00")).isSome
  | .vnone => false

/-! Claim theorems.  Each claim of the specification is settled by one
theorem below (with a witness when the theorem carries hypotheses, and a
counterexample where the claim fails on the code). -/

/-- C1 (amended): the trade identity is a pure function of the raw record
alone - generate_trade_id reads neither the wall clock nor the local
timezone, so two ingestions of the same raw record at different times
always yield the same identity string. -/
theorem trade_identity_pure_of_raw_record :
    ∀ (t : Trades.RawTrade) (tz₁ tz₂ now₁ now₂ : Int),
    (Trades.ingestPair tz₁ now₁ t).1 = (Trades.ingestPair tz₂ now₂ t).1 :=
  fun _ _ _ _ _ => rfl

/-- C1 counterexample: two raw trades that normalize to the identical
document (the transaction hash is dropped by normalization) receive two
different identity strings, refuting that identity is a function of
normalized content. -/
theorem trade_identity_not_function_of_normalized_doc :
    Trades.to_es_doc 0 0 Fixtures.tradeA = Trades.to_es_doc 0 0 Fixtures.tradeB ∧
    Trades.generate_trade_id Fixtures.tradeA ≠
      Trades.generate_trade_id Fixtures.tradeB :=
  ⟨by decide, by decide⟩

/-- C2 (amended): the market normalizer maps epoch seconds, epoch
milliseconds (by the magnitude threshold) and the ISO string to the same
UTC instant, independent of the local timezone; the trade normalizer maps
the seconds input and the ISO string to that instant independently of the
wall clock, but has no magnitude threshold: the epoch-milliseconds input is
treated as seconds, falls outside the representable range, and raises. -/
theorem timestamp_normalization_market_vs_trade :
    Markets.to_iso 0 (.vint 1704067200) = some "2024-01-01T00:00:00+00:00" ∧
    Markets.to_iso 0 (.vint 1704067200000) = some "2024-01-01T00:00:00+00:00" ∧
    Markets.to_iso 0 (.vstr "2024-01-01T00:00:00Z") = some "2024-01-01T00:00:00+00:00" ∧
    Markets.to_iso 3600 (.vstr "2024-01-01T00:00:00Z") = some "2024-01-01T00:00:00+00:00" ∧
    Trades.to_es_doc 0 11 Fixtures.tradeSec = .ok { ts := "2024-01-01T00:00:00+00:00" } ∧
    Trades.to_es_doc 0 22 Fixtures.tradeSec = .ok { ts := "2024-01-01T00:00:00+00:00" } ∧
    Trades.to_es_doc 0 33 Fixtures.tradeIsoZ = .ok { ts := "2024-01-01T00:00:00+00:00" } ∧
    Trades.to_es_doc 0 0 Fixtures.tradeMs = .error () :=
  ⟨by decide, by decide, by decide, by decide, by decide, by decide,
   by decide, by decide⟩

/-- C2 counterexample: the trade normalizer does not map the
epoch-milliseconds input to the claimed instant - it raises (the numeric
branch has no magnitude threshold and no try/except), while the market
normalizer does handle the same input. -/
theorem trade_normalizer_rejects_millisecond_epoch :
    Trades.to_es_doc 0 0 Fixtures.tradeMs = .error () ∧
    Markets.to_iso 0 (.vint 1704067200000) = some "2024-01-01T00:00:00+00:00" :=
  ⟨by decide, by decide⟩

/-- C7: bucket starts are aligned by the floor formula - the aligned value
is floor(epoch / step) times step, divides evenly by the step, and the
trade's epoch lies in the half-open bucket it is assigned to; concretely, a
trade at 2024-01-01T00:07:30Z belongs to bucket 2024-01-01T00:05:00Z for
the 5-minute interval and a trade at 2024-01-01T00:59:59Z belongs to
bucket 2024-01-01T00:00:00Z for the 1-hour interval. -/
theorem bucket_alignment_floor_formula (x step : Int) (hstep : 0 < step) :
    Candles.tradeBucket step x = x / step * step ∧
    step ∣ Candles.tradeBucket step x ∧
    Candles.tradeBucket step x ≤ x ∧
    x < Candles.tradeBucket step x + step ∧
    Candles.tradeBucket 300 1704067650 = 1704067500 ∧
    Candles.tradeBucket 3600 1704070799 = 1704067200 ∧
    isoOfEpoch 1704067650 = "2024-01-01T00:07:30+00:00" ∧
    isoOfEpoch 1704067500 = "2024-01-01T00:05:00+00:00" ∧
    isoOfEpoch 1704070799 = "2024-01-01T00:59:59+00:00" ∧
    isoOfEpoch 1704067200 = "2024-01-01T00:00:00+00:00" ∧
    Candles.interval_to_seconds "5m" = .ok 300 ∧
    Candles.interval_to_seconds "1h" = .ok 3600 ∧
    Candles.bucket_range 1704067650 1704068000 300 = [1704067500, 1704067800] := by
  have h1 := Int.emod_nonneg x (ne_of_gt hstep)
  have h2 := Int.emod_lt_of_pos x hstep
  have h3 := Int.ediv_add_emod x step
  have h4 : x / step * step = step * (x / step) := mul_comm _ _
  have hb : Candles.tradeBucket step x = x / step * step := by
    unfold Candles.tradeBucket
    linarith
  refine ⟨hb, ?_, ?_, ?_, by decide, by decide, by decide, by decide,
    by decide, by decide, rfl, rfl, by decide⟩
  · rw [hb]
    exact dvd_mul_left step (x / step)
  · unfold Candles.tradeBucket
    linarith
  · unfold Candles.tradeBucket
    linarith

/-- C7 witness: the general alignment facts instantiated at the concrete
5-minute example. -/
theorem bucket_alignment_floor_formula_witness :
    (0 : Int) < 300 ∧
    (Candles.tradeBucket 300 1704067650 = 1704067650 / 300 * 300 ∧
      (300 : Int) ∣ Candles.tradeBucket 300 1704067650 ∧
      Candles.tradeBucket 300 1704067650 ≤ 1704067650 ∧
      (1704067650 : Int) < Candles.tradeBucket 300 1704067650 + 300) := by
  have h := bucket_alignment_floor_formula 1704067650 300 (by decide)
  exact ⟨by decide, h.1, h.2.1, h.2.2.1, h.2.2.2.1⟩

/-- C9: when a readable checkpoint with position T is present, the next
fetch window of the trades backfill starts exactly at T and the candles
worker's per-interval start is exactly T; the default lookback (or default
start) is used only when there is no checkpoint or it cannot be read. -/
theorem checkpoint_resumption_exact (tz now days dflt T : Int) (s : String)
    (hparse : parseCkptUtc tz s = some T) (hne : s ≠ "") :
    Trades.backfillStart (some s) tz now days = T ∧
    Candles.load_checkpoint (some (some s)) tz dflt = T ∧
    Trades.backfillStart none tz now days = now - days * 86400 ∧
    Candles.load_checkpoint none tz dflt = dflt ∧
    Candles.load_checkpoint (some none) tz dflt = dflt := by
  refine ⟨?_, ?_, rfl, rfl, rfl⟩
  · unfold Trades.backfillStart
    simp [hne, hparse]
  · unfold Candles.load_checkpoint
    simp [hne, hparse]

/-- C9 witness: resumption at the concrete checkpoint position
2024-01-01T00:00:00+00:00 rather than the seven-day default lookback. -/
theorem checkpoint_resumption_exact_witness :
    parseCkptUtc 0 "2024-01-01T00:00:00+00:00" = some 1704067200 ∧
    "2024-01-01T00:00:00+00:00" ≠ "" ∧
    Trades.backfillStart (some "2024-01-01T00:00:00+00:00") 0 1704153600 7 = 1704067200 ∧
    Candles.load_checkpoint (some (some "2024-01-01T00:00:00+00:00")) 0 99 = 1704067200 := by
  have h := checkpoint_resumption_exact 0 1704153600 7 99 1704067200
    "2024-01-01T00:00:00+00:00" (by decide) (by decide)
  exact ⟨by decide, by decide, h.1, h.2.1⟩

/-- C10: in the incremental polling loop, the checkpoint is left unchanged
when the fetch raises, when it returns no data, when the bulk write raises,
and when the write reports zero successes; it advances to the cycle's
current timestamp exactly when the write reports at least one success. -/
theorem incremental_checkpoint_advances_iff_success
    (file : Option String) (now : Int)
    (fetch : Except Unit (List Trades.RawTrade)) (sink : Except Unit Nat) :
    (fetch = .error () → Trades.tradesCycle file now fetch sink = file) ∧
    (fetch = .ok [] → Trades.tradesCycle file now fetch sink = file) ∧
    (∀ d, fetch = .ok d → sink = .error () →
      Trades.tradesCycle file now fetch sink = file) ∧
    (∀ d, fetch = .ok d → sink = .ok 0 →
      Trades.tradesCycle file now fetch sink = file) ∧
    (∀ d c, fetch = .ok d → d ≠ [] → sink = .ok c → c ≠ 0 →
      Trades.tradesCycle file now fetch sink = some (isoOfEpoch now)) := by
  refine ⟨?_, ?_, ?_, ?_, ?_⟩
  · intro h
    rw [h]
    rfl
  · intro h
    rw [h]
    rfl
  · intro d hf hs
    subst hf
    subst hs
    simp only [Trades.tradesCycle]
    by_cases hd : d = []
    · simp [hd]
    · simp [hd]
  · intro d hf hs
    subst hf
    subst hs
    simp only [Trades.tradesCycle]
    by_cases hd : d = []
    · simp [hd]
    · simp [hd]
  · intro d c hf hd hs hc
    subst hf
    subst hs
    simp only [Trades.tradesCycle]
    simp [hd, hc]

/-- C10 witness: a cycle with data and three reported successes advances
the checkpoint to the cycle timestamp; a cycle whose fetch raises leaves it
unchanged. -/
theorem incremental_checkpoint_advances_iff_success_witness :
    Trades.tradesCycle (some "x") 0 (.ok [Fixtures.emptyTrade]) (.ok 3) =
      some (isoOfEpoch 0) ∧
    Trades.tradesCycle (some "x") 0 (.error ()) (.ok 3) = some "x" :=
  ⟨(incremental_checkpoint_advances_iff_success (some "x") 0
      (.ok [Fixtures.emptyTrade]) (.ok 3)).2.2.2.2 [Fixtures.emptyTrade] 3
      rfl (by decide) rfl (by decide),
   (incremental_checkpoint_advances_iff_success (some "x") 0
      (.error ()) (.ok 3)).1 rfl⟩

/-- Helper: the markets pagination loop makes at most fuel page requests. -/
theorem fetchAllGo_requests_le (u : Markets.MUpstream) (ps : Nat) :
    ∀ (fuel call : Nat) (st : Markets.MState),
    (Markets.fetchAllGo u ps fuel call st).2 ≤ fuel := by
  intro fuel
  induction fuel with
  | zero =>
      intro call st
      simp [Markets.fetchAllGo]
  | succ n ih =>
      intro call st
      simp only [Markets.fetchAllGo]
      split
      · exact Nat.succ_le_succ (Nat.zero_le n)
      · split
        · simpa using Nat.succ_le_succ (ih (call + 1) _)
        · split
          · simpa using Nat.succ_le_succ (ih (call + 1) _)
          · split
            · exact Nat.succ_le_succ (Nat.zero_le n)
            · simpa using Nat.succ_le_succ (ih (call + 1) _)

/-- Helper: against the always-full-page always-cursor upstream, the trades
backfill inner loop is still running after any number of page requests. -/
theorem runInner_adv_running :
    ∀ (n call : Nat) (st : Trades.TState),
    Trades.runInner Fixtures.advTrades 500 0 0 n call st = .running := by
  intro n
  induction n with
  | zero =>
      intro call st
      rfl
  | succ k ih =>
      intro call st
      have hact : Trades.tradesActions 0 0 [Fixtures.emptyTrade] =
          .ok [Trades.tradeAction 0 0 Fixtures.emptyTrade { ts := isoOfEpoch 0 }] := rfl
      simp only [Trades.runInner, Fixtures.advTrades, hact]
      exact ih (call + 1) ⟨some "c", none⟩

/-- C3 (amended): the markets fetch loop is bounded by the hard
10000-page safety ceiling against every upstream, but the trades backfill
inner pagination loop has no such ceiling: against an upstream that always
returns a nonempty page with a next cursor it is still running after any
number of page requests. -/
theorem pagination_bounds_markets_unbounded_trades :
    (∀ (u : Markets.MUpstream) (ps : Nat),
      (Markets.fetch_all_markets u ps).2 ≤ 10000) ∧
    (∀ n : Nat,
      Trades.runInner Fixtures.advTrades 500 0 0 n 1 {} = .running) :=
  ⟨fun u ps => fetchAllGo_requests_le u ps 10000 1 ⟨none, none, some 0⟩,
   fun n => runInner_adv_running n 1 {}⟩

/-- C3 counterexample: the trades backfill inner loop is still running
after 10001 page requests against the adversarial upstream, exceeding the
10000-request ceiling the markets loop enforces, so no configured
page-count ceiling bounds this loop. -/
theorem trades_backfill_loop_exceeds_ceiling :
    Trades.runInner Fixtures.advTrades 500 0 0 10001 1 {} = .running :=
  runInner_adv_running 10001 1 {}

/-- Helper: a successful bulk_upsert_trades call emits exactly one action
per input trade, and every action requests the index (overwrite) op. -/
theorem tradesActions_ok_spec (tz now : Int) :
    ∀ (ts : List Trades.RawTrade) (acts : List (BulkAction Trades.TradeDoc)),
    Trades.tradesActions tz now ts = .ok acts →
    acts.length = ts.length ∧ ∀ a ∈ acts, a.op = OpType.index := by
  intro ts
  induction ts with
  | nil =>
      intro acts h
      simp only [Trades.tradesActions] at h
      injection h with h
      subst h
      exact ⟨rfl, by simp⟩
  | cons t rest ih =>
      intro acts h
      simp only [Trades.tradesActions] at h
      cases hd : Trades.to_es_doc tz now t with
      | error e =>
          rw [hd] at h
          exact absurd h (by simp)
      | ok d =>
          rw [hd] at h
          cases ht : Trades.tradesActions tz now rest with
          | error e =>
              rw [ht] at h
              exact absurd h (by simp)
          | ok tail =>
              rw [ht] at h
              injection h with h
              subst h
              obtain ⟨hlen, hops⟩ := ih tail ht
              refine ⟨by simp [hlen], ?_⟩
              intro a ha
              rcases List.mem_cons.mp ha with ha1 | ha2
              · rw [ha1]
                rfl
              · exact hops a ha2

/-- Helper: overwriting insert stores the new payload at the key. -/
theorem storeGet_storeSet_self {α : Type} (k : String × String) (v : α) :
    ∀ (s : Store α), storeGet (storeSet s k v) k = some v := by
  intro s
  induction s with
  | nil =>
      simp [storeSet, storeGet, List.find?]
  | cons e rest ih =>
      by_cases h : e.1 = k
      · simp [storeSet, h, storeGet, List.find?]
      · simp only [storeSet, if_neg h]
        simp only [storeGet, List.find?] at ih ⊢
        simp [h, ih]

/-- Helper: rewriting the same payload at the same key is a no-op. -/
theorem storeSet_storeSet_self {α : Type} (k : String × String) (v : α) :
    ∀ (s : Store α), storeSet (storeSet s k v) k v = storeSet s k v := by
  intro s
  induction s with
  | nil =>
      simp [storeSet]
  | cons e rest ih =>
      by_cases h : e.1 = k
      · simp [storeSet, h]
      · simp [storeSet, h, ih]

/-- C4 (amended): all three generators request the index (overwrite)
semantic, never create-if-absent: a second write of an existing identity
with a different payload replaces the stored document (see the
counterexample), a rewrite with the identical payload is a no-op, and the
write always stores the submitted payload at the identity. -/
theorem sink_actions_use_overwrite_semantics :
    (∀ (tz now : Int) (ts : List Trades.RawTrade)
        (acts : List (BulkAction Trades.TradeDoc)),
      Trades.tradesActions tz now ts = .ok acts →
      ∀ a ∈ acts, a.op = OpType.index) ∧
    (∀ (tz : Int) (ms : List Markets.RawMarket)
        (a : BulkAction Markets.RawMarket),
      a ∈ Markets.marketsActions tz ms → a.op = OpType.index) ∧
    (∀ (ds : List Candles.Candle) (a : BulkAction Candles.Candle),
      a ∈ Candles.candlesActions ds → a.op = OpType.index) ∧
    (∀ (s : Store Trades.TradeDoc) (k : String × String)
        (v : Trades.TradeDoc),
      storeGet (storeSet s k v) k = some v ∧
      storeSet (storeSet s k v) k v = storeSet s k v) := by
  refine ⟨?_, ?_, ?_, ?_⟩
  · intro tz now ts acts h
    exact (tradesActions_ok_spec tz now ts acts h).2
  · intro tz ms a ha
    obtain ⟨m, _, hm⟩ := List.mem_map.mp ha
    rw [← hm]
  · intro ds a ha
    obtain ⟨d, _, hd⟩ := List.mem_map.mp ha
    rw [← hd]
  · intro s k v
    exact ⟨storeGet_storeSet_self k v s, storeSet_storeSet_self k v s⟩

/-- C4 witness: the overwrite facts at a concrete store, key and payloads,
with the index op discharged on a concrete successful action list. -/
theorem sink_actions_use_overwrite_semantics_witness :
    Trades.tradesActions 0 0 [Fixtures.tradeP2] = .ok [Fixtures.actP2] ∧
    Fixtures.actP2.op = OpType.index ∧
    storeGet (storeSet [(Fixtures.keyP, Fixtures.docP1)] Fixtures.keyP
      Fixtures.docP2) Fixtures.keyP = some Fixtures.docP2 := by
  have h := sink_actions_use_overwrite_semantics
  have hacts : Trades.tradesActions 0 0 [Fixtures.tradeP2] = .ok [Fixtures.actP2] := by
    decide
  refine ⟨hacts, ?_, ?_⟩
  · exact h.1 0 0 [Fixtures.tradeP2] [Fixtures.actP2] hacts Fixtures.actP2 (by simp)
  · exact (h.2.2.2 [(Fixtures.keyP, Fixtures.docP1)] Fixtures.keyP Fixtures.docP2).1

/-- C4 counterexample: the trades sink does not use create-if-absent
semantics: a second write of the stored identity with a different payload
replaces the originally stored document instead of leaving it unchanged. -/
theorem trade_rewrite_overwrites_stored_document :
    Trades.generate_trade_id Fixtures.tradeP1 =
      Trades.generate_trade_id Fixtures.tradeP2 ∧
    Trades.tradesActions 0 0 [Fixtures.tradeP2] = .ok [Fixtures.actP2] ∧
    storeGet [(Fixtures.keyP, Fixtures.docP1)] Fixtures.keyP =
      some Fixtures.docP1 ∧
    (applyBulk [(Fixtures.keyP, Fixtures.docP1)] [Fixtures.actP2]).1 =
      [(Fixtures.keyP, Fixtures.docP2)] ∧
    Fixtures.docP2 ≠ Fixtures.docP1 :=
  ⟨by decide, by decide, by decide, by decide, by decide⟩

/-- Helper: grouping skips every trade whose market key is empty. -/
theorem groupByMarket_nil_of_all_empty :
    ∀ (docs : List Trades.TradeDoc),
    (∀ t ∈ docs, Candles.mid_of t = "") → Candles.groupByMarket docs = [] := by
  have hgen : ∀ (docs : List Trades.TradeDoc)
      (acc : List (String × List Trades.TradeDoc)),
      (∀ t ∈ docs, Candles.mid_of t = "") →
      docs.foldl (fun acc t =>
        let mid := Candles.mid_of t
        if mid = "" then acc else Candles.insertTrade acc mid t) acc = acc := by
    intro docs
    induction docs with
    | nil => intro acc _; rfl
    | cons t ts ih =>
        intro acc hall
        have hmid : Candles.mid_of t = "" := hall t (by simp)
        simp only [List.foldl_cons, hmid, if_pos rfl]
        exact ih acc (fun t' ht' => hall t' (by simp [ht']))
  intro docs hall
  exact hgen docs [] hall

/-- C8 (amended): records lacking a usable market linkage are not dropped
at the normalization boundary: every successfully normalized trade yields
exactly one sink action (with an identity) even with no market linkage, and
every market yields exactly one action (the identity generator always
produces an id, by hash fallback if need be); trades without a market key
are excluded only later, by the candle aggregator's grouping. -/
theorem keyless_records_not_dropped :
    (∀ (tz now : Int) (ts : List Trades.RawTrade)
        (acts : List (BulkAction Trades.TradeDoc)),
      Trades.tradesActions tz now ts = .ok acts → acts.length = ts.length) ∧
    (∀ (tz : Int) (ms : List Markets.RawMarket),
      (Markets.marketsActions tz ms).length = ms.length) ∧
    (∀ (docs : List Trades.TradeDoc) (i : String) (b : Int),
      (∀ t ∈ docs, Candles.mid_of t = "") →
      Candles.compute_candles docs i b = []) := by
  refine ⟨?_, ?_, ?_⟩
  · intro tz now ts acts h
    exact (tradesActions_ok_spec tz now ts acts h).1
  · intro tz ms
    simp [Markets.marketsActions]
  · intro docs i b hall
    unfold Candles.compute_candles
    rw [groupByMarket_nil_of_all_empty docs hall]
    rfl

/-- C8 witness: one keyless trade and one empty market each produce
exactly one action, and a keyless stored trade contributes no candle. -/
theorem keyless_records_not_dropped_witness :
    Trades.tradesActions 0 0 [Fixtures.tradeNoMarket] =
      .ok [{ op := .index, target := "trades_v1-2024.01.01",
             id := "h:a:2024-01-01T00:00:00+00:00",
             source := { ts := "2024-01-01T00:00:00+00:00" } }] ∧
    [({ op := .index, target := "trades_v1-2024.01.01",
        id := "h:a:2024-01-01T00:00:00+00:00",
        source := { ts := "2024-01-01T00:00:00+00:00" } } :
      BulkAction Trades.TradeDoc)].length = [Fixtures.tradeNoMarket].length ∧
    (Markets.marketsActions 0 [[]]).length = [([] : Markets.RawMarket)].length ∧
    Candles.compute_candles [Fixtures.docNoMid] "1m" 0 = [] := by
  have h := keyless_records_not_dropped
  have hacts : Trades.tradesActions 0 0 [Fixtures.tradeNoMarket] =
      .ok [{ op := .index, target := "trades_v1-2024.01.01",
             id := "h:a:2024-01-01T00:00:00+00:00",
             source := { ts := "2024-01-01T00:00:00+00:00" } }] := by decide
  exact ⟨hacts, h.1 0 0 [Fixtures.tradeNoMarket] _ hacts, h.2.1 0 [[]],
    h.2.2 [Fixtures.docNoMid] "1m" 0 (by decide)⟩

/-- C8 counterexample: a raw trade with no market linkage at all is not
dropped: it is normalized (market_id absent), assigned the identity
h:a:2024-01-01T00:00:00+00:00 and handed to the sink as one action. -/
theorem keyless_trade_still_written :
    Trades.to_es_doc 0 0 Fixtures.tradeNoMarket =
      .ok { ts := "2024-01-01T00:00:00+00:00", market_id := none } ∧
    Trades.tradesActions 0 0 [Fixtures.tradeNoMarket] =
      .ok [{ op := .index, target := "trades_v1-2024.01.01",
             id := "h:a:2024-01-01T00:00:00+00:00",
             source := { ts := "2024-01-01T00:00:00+00:00" } }] ∧
    (Markets.marketsActions 0 [[]]).length = 1 :=
  ⟨by decide, by decide, rfl⟩

/-- C5 (amended): for every raw trade whose timestamp field is present and
parseable (numeric in the representable range, or an accepted ISO string),
normalization followed by identity generation is deterministic and
independent of the wall clock: the (identity, payload) pair is identical
across ingestion instants. -/
theorem normalize_identity_deterministic_when_ts_parseable
    (t : Trades.RawTrade) (tz now₁ now₂ : Int)
    (h : Trades.tsClockFree t = true) :
    Trades.ingestPair tz now₁ t = Trades.ingestPair tz now₂ t := by
  suffices hdoc : Trades.to_es_doc tz now₁ t = Trades.to_es_doc tz now₂ t by
    unfold Trades.ingestPair
    rw [hdoc]
  unfold Trades.tsClockFree at h
  unfold Trades.to_es_doc
  cases hv : pyOr (getVal t.ts) (getVal t.timestamp) with
  | vnone =>
      rw [hv] at h
      exact absurd h (by simp)
  | vint n => rfl
  | vfloat q => rfl
  | vstr s =>
      rw [hv] at h
      obtain ⟨p, hp⟩ := Option.isSome_iff_exists.mp h
      simp only [hp]

/-- C5 witness: the deterministic pair at a concrete parseable trade and
two different wall-clock instants. -/
theorem normalize_identity_deterministic_when_ts_parseable_witness :
    Trades.tsClockFree Fixtures.tradeA = true ∧
    Trades.ingestPair 0 5 Fixtures.tradeA = Trades.ingestPair 0 9 Fixtures.tradeA :=
  ⟨by decide,
   normalize_identity_deterministic_when_ts_parseable Fixtures.tradeA 0 5 9
     (by decide)⟩

/-- Helper: a left max-fold over rationals lands on its seed or a list
element. -/
theorem foldl_max_mem (xs : List ℚ) : ∀ x : ℚ, xs.foldl max x ∈ x :: xs := by
  induction xs with
  | nil =>
      intro x
      simp
  | cons y ys ih =>
      intro x
      simp only [List.foldl_cons]
      rcases List.mem_cons.mp (ih (max x y)) with h1 | h1
      · rw [h1]
        rcases max_choice x y with hc | hc
        · rw [hc]
          simp
        · rw [hc]
          simp
      · exact List.mem_cons_of_mem _ (List.mem_cons_of_mem _ h1)

/-- Helper: a left max-fold bounds its seed and every list element. -/
theorem foldl_max_le (xs : List ℚ) :
    ∀ (x p : ℚ), p ∈ x :: xs → p ≤ xs.foldl max x := by
  induction xs with
  | nil =>
      intro x p hp
      simp only [List.foldl_nil]
      rcases List.mem_cons.mp hp with h | h
      · exact le_of_eq h
      · exact absurd h (List.not_mem_nil p)
  | cons y ys ih =>
      intro x p hp
      simp only [List.foldl_cons]
      have hseed : max x y ≤ List.foldl max (max x y) ys :=
        ih (max x y) (max x y) (List.mem_cons_self _ _)
      rcases List.mem_cons.mp hp with h | h
      · rw [h]
        exact le_trans (le_max_left x y) hseed
      · rcases List.mem_cons.mp h with h2 | h2
        · rw [h2]
          exact le_trans (le_max_right x y) hseed
        · exact ih (max x y) p (List.mem_cons_of_mem _ h2)

/-- Helper: a left min-fold over rationals lands on its seed or a list
element. -/
theorem foldl_min_mem (xs : List ℚ) : ∀ x : ℚ, xs.foldl min x ∈ x :: xs := by
  induction xs with
  | nil =>
      intro x
      simp
  | cons y ys ih =>
      intro x
      simp only [List.foldl_cons]
      rcases List.mem_cons.mp (ih (min x y)) with h1 | h1
      · rw [h1]
        rcases min_choice x y with hc | hc
        · rw [hc]
          simp
        · rw [hc]
          simp
      · exact List.mem_cons_of_mem _ (List.mem_cons_of_mem _ h1)

/-- Helper: a left min-fold is below its seed and every list element. -/
theorem foldl_min_le (xs : List ℚ) :
    ∀ (x p : ℚ), p ∈ x :: xs → xs.foldl min x ≤ p := by
  induction xs with
  | nil =>
      intro x p hp
      simp only [List.foldl_nil]
      rcases List.mem_cons.mp hp with h | h
      · exact le_of_eq h.symm
      · exact absurd h (List.not_mem_nil p)
  | cons y ys ih =>
      intro x p hp
      simp only [List.foldl_cons]
      have hseed : List.foldl min (min x y) ys ≤ min x y :=
        ih (min x y) (min x y) (List.mem_cons_self _ _)
      rcases List.mem_cons.mp hp with h | h
      · rw [h]
        exact le_trans hseed (min_le_left x y)
      · rcases List.mem_cons.mp h with h2 | h2
        · rw [h2]
          exact le_trans hseed (min_le_right x y)
        · exact ih (min x y) p (List.mem_cons_of_mem _ h2)

/-- Helper: the left add-fold (Python sum) equals seed plus list sum. -/
theorem foldl_add_eq_sum (xs : List ℚ) :
    ∀ a : ℚ, xs.foldl (· + ·) a = a + xs.sum := by
  induction xs with
  | nil =>
      intro a
      simp
  | cons y ys ih =>
      intro a
      simp only [List.foldl_cons, List.sum_cons, ih (a + y)]
      ring

/-- Helper: folding the grouping step over trades of one nonempty market
key appends them all to that market's bucket. -/
theorem foldl_group_uniform (m : String) (hm : m ≠ "") :
    ∀ (rows pre : List Trades.TradeDoc),
    (∀ t ∈ rows, Candles.mid_of t = m) →
    rows.foldl (fun acc t =>
      let mid := Candles.mid_of t
      if mid = "" then acc else Candles.insertTrade acc mid t) [(m, pre)]
      = [(m, pre ++ rows)] := by
  intro rows
  induction rows with
  | nil =>
      intro pre _
      simp
  | cons t ts ih =>
      intro pre hall
      have hmid : Candles.mid_of t = m := hall t (by simp)
      have hstep : Candles.insertTrade [(m, pre)] m t = [(m, pre ++ [t])] := by
        simp [Candles.insertTrade]
      simp only [List.foldl_cons, hmid, if_neg hm, hstep]
      rw [ih (pre ++ [t]) (fun t' ht' => hall t' (List.mem_cons_of_mem _ ht'))]
      simp

/-- C6: for every nonempty time-ascending trade list of one market in one
bucket, the aggregator emits exactly one candle whose open is the first
trade's price, close the last trade's price, high and low the maximum and
minimum price, and volume the sum of sizes. -/
theorem candle_aggregation_correct
    (r0 : Trades.TradeDoc) (rest : List Trades.TradeDoc)
    (m iv : String) (b : Int) (hm : m ≠ "")
    (hall : ∀ t ∈ r0 :: rest, Candles.mid_of t = m) :
    ∃ c : Candles.Candle,
      Candles.compute_candles (r0 :: rest) iv b = [c] ∧
      c.market_id = m ∧
      c.interval = iv ∧
      c.open_time = isoOfEpoch b ∧
      c.open_p = Candles.price_of r0 ∧
      c.close_p =
        Candles.price_of ((r0 :: rest).getLast (List.cons_ne_nil r0 rest)) ∧
      c.high_p ∈ (r0 :: rest).map Candles.price_of ∧
      (∀ p ∈ (r0 :: rest).map Candles.price_of, p ≤ c.high_p) ∧
      c.low_p ∈ (r0 :: rest).map Candles.price_of ∧
      (∀ p ∈ (r0 :: rest).map Candles.price_of, c.low_p ≤ p) ∧
      c.volume = ((r0 :: rest).map Candles.size_of).sum := by
  have hgroup : Candles.groupByMarket (r0 :: rest) = [(m, r0 :: rest)] := by
    unfold Candles.groupByMarket
    have hmid : Candles.mid_of r0 = m := hall r0 (by simp)
    have hstep : Candles.insertTrade [] m r0 = [(m, [r0])] := rfl
    simp only [List.foldl_cons, hmid, if_neg hm, hstep]
    rw [foldl_group_uniform m hm rest [r0]
      (fun t ht => hall t (List.mem_cons_of_mem _ ht))]
    simp
  refine ⟨{ market_id := m, interval := iv, open_time := isoOfEpoch b,
            open_p := Candles.price_of r0,
            high_p := Candles.pymax ((r0 :: rest).map Candles.price_of)
              (Candles.price_of r0),
            low_p := Candles.pymin ((r0 :: rest).map Candles.price_of)
              (Candles.price_of r0),
            close_p := Candles.price_of ((r0 :: rest).getLastD r0),
            volume := Candles.pysumQ ((r0 :: rest).map Candles.size_of) },
    ?_, rfl, rfl, rfl, rfl, ?_, ?_, ?_, ?_, ?_, ?_⟩
  · unfold Candles.compute_candles
    rw [hgroup]
    rfl
  · show Candles.price_of ((r0 :: rest).getLastD r0) =
      Candles.price_of ((r0 :: rest).getLast (List.cons_ne_nil r0 rest))
    rw [List.getLastD_eq_getLast?,
      List.getLast?_eq_getLast (r0 :: rest) (List.cons_ne_nil r0 rest)]
    rfl
  · have hmem := foldl_max_mem (rest.map Candles.price_of) (Candles.price_of r0)
    simpa [Candles.pymax] using hmem
  · intro p hp
    have hle := foldl_max_le (rest.map Candles.price_of) (Candles.price_of r0) p
      (by simpa using hp)
    simpa [Candles.pymax] using hle
  · have hmem := foldl_min_mem (rest.map Candles.price_of) (Candles.price_of r0)
    simpa [Candles.pymin] using hmem
  · intro p hp
    have hle := foldl_min_le (rest.map Candles.price_of) (Candles.price_of r0) p
      (by simpa using hp)
    simpa [Candles.pymin] using hle
  · have hsum := foldl_add_eq_sum ((r0 :: rest).map Candles.size_of) 0
    simpa [Candles.pysumQ] using hsum

/-- C6 witness: the spec's concrete bucket - trades with prices 10, 12, 9
and sizes 2, 3, 1 in time order yield open 10, high 12, low 9, close 9,
volume 6 - together with the general theorem instantiated there. -/
theorem candle_aggregation_correct_witness :
    Candles.compute_candles Fixtures.candleRows "5m" 1704067500 =
      [{ market_id := "m", interval := "5m",
         open_time := "2024-01-01T00:05:00+00:00",
         open_p := 10, high_p := 12, low_p := 9, close_p := 9,
         volume := 6 }] ∧
    ("m" : String) ≠ "" ∧
    (∀ t ∈ Fixtures.candleRows, Candles.mid_of t = "m") ∧
    ∃ c : Candles.Candle,
      Candles.compute_candles Fixtures.candleRows "5m" 1704067500 = [c] ∧
      c.market_id = "m" ∧ c.open_p = 10 ∧ c.high_p = 12 ∧ c.low_p = 9 ∧
      c.close_p = 9 ∧ c.volume = 6 := by
  have hconc : Candles.compute_candles Fixtures.candleRows "5m" 1704067500 =
      [{ market_id := "m", interval := "5m",
         open_time := "2024-01-01T00:05:00+00:00",
         open_p := 10, high_p := 12, low_p := 9, close_p := 9,
         volume := 6 }] := by
    with_unfolding_all decide
  refine ⟨hconc, by decide, by decide, ?_⟩
  obtain ⟨c, hc, hmkt, _hiv, _hot, hopen, hclose, _hmem, hub, _hmem2, hlb, hvol⟩ :=
    candle_aggregation_correct
      { ts := "2024-01-01T00:05:01+00:00", market_id := some (.vstr "m"),
        price := some 10, size := some 2 }
      [ { ts := "2024-01-01T00:05:02+00:00", market_id := some (.vstr "m"),
          price := some 12, size := some 3 },
        { ts := "2024-01-01T00:05:03+00:00", market_id := some (.vstr "m"),
          price := some 9, size := some 1 } ]
      "m" "5m" 1704067500 (by decide) (by decide)
  have hrows : Fixtures.candleRows =
      { ts := "2024-01-01T00:05:01+00:00", market_id := some (.vstr "m"),
        price := some 10, size := some 2 } ::
      [ { ts := "2024-01-01T00:05:02+00:00", market_id := some (.vstr "m"),
          price := some 12, size := some 3 },
        { ts := "2024-01-01T00:05:03+00:00", market_id := some (.vstr "m"),
          price := some 9, size := some 1 } ] := rfl
  rw [← hrows] at hc
  have hcand : c =
      ({ market_id := "m", interval := "5m",
         open_time := "2024-01-01T00:05:00+00:00",
         open_p := 10, high_p := 12, low_p := 9, close_p := 9,
         volume := 6 } : Candles.Candle) := by
    have := hconc.symm.trans hc
    injection this with h1 _
    exact h1.symm
  exact ⟨c, hc, hmkt, by rw [hcand], by rw [hcand], by rw [hcand],
    by rw [hcand], by rw [hcand]⟩

/-- C5 counterexample: a raw trade with no timestamp field normalizes
through the wall clock, so the (identity, payload) pair differs between two
ingestion instants. -/
theorem normalized_payload_depends_on_wall_clock :
    Trades.ingestPair 0 0 Fixtures.tradeNoTs ≠
      Trades.ingestPair 0 1 Fixtures.tradeNoTs := fun h =>
  absurd (congrArg Prod.snd h) (by decide)

end PolyScraper
